import Mathlib

/-!
Verification of the DLI (Durable Layered Index) repository against its design
specification.  The Go sources are shallowly embedded: 32-bit float arithmetic
is modelled exactly over the reals, slices become lists, mutation becomes
explicit state passing, channels become explicit slot/signal values, and the
outcome of a downstream RPC becomes an `Except` parameter.
-/

namespace DLI

/-- Slices of `float32` are modelled as lists of reals (exact arithmetic). -/
abbrev Vec := List ℝ

/-- The single accumulation loop inside `cosineSimilarity` (vector_math.go):
`for i := range a` accumulating `dotProduct`, `normA` and `normB`.  The Go
loop runs under the guard `len(a) == len(b)`, so iterating over the zipped
lists is the same traversal. -/
def simAcc (a b : Vec) : ℝ × ℝ × ℝ :=
  (a.zip b).foldl
    (fun acc p => (acc.1 + p.1 * p.2, acc.2.1 + p.1 * p.1, acc.2.2 + p.2 * p.2))
    (0, 0, 0)

/-- Embedding of `cosineSimilarity` (vector_math.go): returns 0 on length
mismatch or when either accumulated squared norm is zero, and otherwise
`dotProduct / (sqrt(normA) * sqrt(normB))`. -/
noncomputable def cosineSimilarity (a b : Vec) : ℝ :=
  if a.length ≠ b.length then 0
  else
    let s := simAcc a b
    if s.2.1 = 0 ∨ s.2.2 = 0 then 0
    else s.1 / (Real.sqrt s.2.1 * Real.sqrt s.2.2)

/-- Embedding of `normalizeVector` (vector_math.go): divide every component by
the Euclidean norm when that norm is positive, otherwise leave the vector
unchanged.  The in-place update becomes a returned list. -/
noncomputable def normalizeVector (v : Vec) : Vec :=
  let norm := Real.sqrt ((v.map (fun x => x * x)).sum)
  if 0 < norm then v.map (fun x => x / norm) else v

/-- Embedding of `dotProduct` (vector_math.go). -/
def dotProduct (a b : Vec) : ℝ :=
  if a.length ≠ b.length then 0 else (List.zipWith (fun x y => x * y) a b).sum

/-- Specification-side sum of squared components of a vector (the quantity the
Go code calls `norm` before taking the square root). -/
def sqNormSum (v : Vec) : ℝ := (v.map (fun x => x * x)).sum

/-- Specification-side Euclidean (L2) norm of a vector. -/
noncomputable def l2norm (v : Vec) : ℝ := Real.sqrt (sqNormSum v)

/-- A result value delivered to a query through `SetResult`.  In Go every
delivery is an `interface` value; the three shapes actually delivered by
`processBatch` are a real downstream result, the whole-batch downstream error,
and the fresh "no result returned for query" error. -/
inductive QueryResult where
  | value (r : String)
  | downstreamFailure (e : String)
  | missingResult
deriving DecidableEq

/-- Embedding of `Query` (internal/durable_layered_index/query.go).  The
capacity-1 buffered channel `ResultChan` becomes an `Option` slot; the field
named `VectorEmbedding` there (`Embedding` in the main package) is called
`embedding`.  The stored context is dropped (it only matters for blocking). -/
structure Query where
  text : String
  embedding : Vec
  resultChan : Option QueryResult

instance : Inhabited Query := ⟨⟨"", [], none⟩⟩

/-- Embedding of `EmbedText` (query.go): a 384-dimensional vector with every
component equal to `float32(len(text))`; Go `len` on a string counts bytes. -/
def EmbedText (text : String) : Vec :=
  List.replicate 384 ((text.utf8ByteSize : ℝ))

/-- Embedding of `NewQuery` (query.go): text, embedding from `EmbedText`, and
an empty capacity-1 result slot. -/
def NewQuery (text : String) : Query :=
  { text := text, embedding := EmbedText text, resultChan := none }

/-- Embedding of `Query.SetResult` (query.go): a non-blocking send on the
capacity-1 channel; when the slot is already full the value is discarded. -/
def SetResult (q : Query) (result : QueryResult) : Query :=
  match q.resultChan with
  | none => { q with resultChan := some result }
  | some r => { q with resultChan := some r }

/-- Embedding of `Query.WaitForResult` (query.go): the value the single
consumer receives from the channel, `none` when it would block (or be
cancelled by the context). -/
def WaitForResult (q : Query) : Option QueryResult := q.resultChan

/-- Embedding of `Bin` (internal/durable_layered_index/bin.go).  The queue,
the shutdown latch and the (mutable) thresholds are the state that the claims
depend on; the `dbCollection` handle is abstracted by passing the outcome of
its `BatchQuery` call to `processBatch` directly, and the worker goroutine,
locks and channels are modelled by the explicit step functions below. -/
structure Bin where
  queue : List Query
  maxBatchSize : ℕ
  maxWaitTimeMs : ℕ
  shutdown : Bool

instance : Inhabited Bin := ⟨⟨[], 0, 0, false⟩⟩

/-- Embedding of `NewBin` (bin.go): empty queue, live bin.  The router always
constructs bins with `NewBin(dbCollection, 6, 500*time.Millisecond)`. -/
def NewBin (maxBatchSize : ℕ) (maxWaitTimeMs : ℕ) : Bin :=
  { queue := [], maxBatchSize := maxBatchSize, maxWaitTimeMs := maxWaitTimeMs,
    shutdown := false }

/-- The three observable effects of one `Bin.AddQuery` call: the returned
error value, the bin state afterwards, and whether `signalFlush` was invoked
(the coalescing send on the capacity-1 `flushChan`). -/
structure AddQueryResult where
  ret : Except String Unit
  bin : Bin
  flushSignaled : Bool

/-- Embedding of `Bin.AddQuery` (bin.go): reject with an error when the bin is
shut down; otherwise append the query and signal a flush exactly when the new
queue length has reached `maxBatchSize`. -/
def AddQuery (b : Bin) (q : Query) : AddQueryResult :=
  if b.shutdown then ⟨Except.error "bin is shut down", b, false⟩
  else
    let queue := b.queue ++ [q]
    ⟨Except.ok (), { b with queue := queue },
      decide (queue.length ≥ b.maxBatchSize)⟩

/-- The value `processBatch` (bin.go) delivers to the query at position `i` of
a batch, given the outcome `call` of the downstream `BatchQuery` call: the
whole-batch error when the call failed, `results[i]` when it exists, and the
"no result returned for query" error otherwise. -/
def batchDelivery (call : Except String (List String)) (i : ℕ) : QueryResult :=
  match call with
  | Except.error e => QueryResult.downstreamFailure e
  | Except.ok results =>
    if i < results.length then QueryResult.value (results.getD i "")
    else QueryResult.missingResult

/-- Embedding of `Bin.processBatch` (bin.go): when the queue is empty nothing
happens; otherwise the queue is swapped out for an empty one and every query
of the taken batch receives its delivery through `SetResult`, in insertion
order.  The pair holds the bin state afterwards and the batch with the
deliveries applied. -/
def processBatch (b : Bin) (call : Except String (List String)) :
    Bin × List Query :=
  if b.queue.isEmpty then (b, [])
  else
    let batch := b.queue
    let b1 := { b with queue := [] }
    (b1, batch.enum.map (fun p => SetResult p.2 (batchDelivery call p.1)))

/-- The wrapped error `fmt.Errorf("failed to shutdown bin %d: %w", i, err)`
that `DurableLayeredIndex.Close` returns for the first failing bin. -/
def shutdownErrMsg (i : ℕ) (e : String) : String :=
  "failed to shutdown bin " ++ toString i ++ ": " ++ e

/-- The loop body of `DurableLayeredIndex.Close` (dli.go): iterate the bins in
order, call `Shutdown` on each, and return as soon as one fails.  Each bin is
abstracted by the outcome its `Shutdown(ctx)` call would produce (`none` for
success).  The result records the returned error (if any) together with the
number of bins on which `Shutdown` was actually called. -/
def closeGo : ℕ → List (Option String) → Option String × ℕ
  | _, [] => (none, 0)
  | i, outcome :: rest =>
    match outcome with
    | some e => (some (shutdownErrMsg i e), 1)
    | none =>
      let r := closeGo (i + 1) rest
      (r.1, r.2 + 1)

/-- Embedding of `DurableLayeredIndex.Close` (dli.go), starting the loop at
bin index 0. -/
def Close (shutdownOutcomes : List (Option String)) : Option String × ℕ :=
  closeGo 0 shutdownOutcomes

/-- Embedding of `DurableLayeredIndex` (dli.go).  The `dbCollection` handle is
dropped (it is only threaded through to `BatchQuery`, which is abstracted). -/
structure DurableLayeredIndex where
  binVectors : List Vec
  bins : List Bin
  groupingThreshold : ℝ
  maxBinsPerIndex : ℕ

/-- Embedding of `NewDurableLayeredIndex` (dli.go): empty bin table; a
non-positive `maxBins` argument (a Go `int`, hence `ℤ` here) is replaced by
the default 100. -/
def NewDurableLayeredIndex (maxBins : ℤ) (groupingThreshold : ℝ) :
    DurableLayeredIndex :=
  { binVectors := [], bins := [],
    groupingThreshold := groupingThreshold,
    maxBinsPerIndex := if maxBins ≤ 0 then 100 else maxBins.toNat }

/-- Embedding of `addBinWithVector` (dli.go): append a copy of the vector
(lists are immutable, so the copy is the vector itself) and a fresh
`NewBin(dbCollection, 6, 500*time.Millisecond)`; the returned index is that of
the appended bin. -/
def addBinWithVector (dli : DurableLayeredIndex) (vector : Vec) :
    DurableLayeredIndex × ℕ :=
  let dli1 := { dli with
    binVectors := dli.binVectors ++ [vector],
    bins := dli.bins ++ [NewBin 6 500] }
  (dli1, dli1.bins.length - 1)

/-- The statement `dli.bins[i].AddQuery(query)` as it appears inside
`addQueryToBin` (dli.go): the bin at index `i` is replaced by its state after
the `AddQuery` call (the returned error is discarded by the router). -/
def submitTo (dli : DurableLayeredIndex) (i : ℕ) (q : Query) :
    DurableLayeredIndex :=
  { dli with bins := dli.bins.set i (AddQuery (dli.bins.getD i default) q).bin }

/-- The argmax loop of `addQueryToBin` (dli.go): `bestBinIdx, bestSimilarity`
start at `(0, -1.0)` and are replaced whenever a strictly larger similarity is
seen, so the first index attaining the running maximum is kept. -/
noncomputable def bestBinLoop : ℕ → ℕ × ℝ → List ℝ → ℕ × ℝ
  | _, best, [] => best
  | i, best, s :: rest =>
    bestBinLoop (i + 1) (if s > best.2 then (i, s) else best) rest

/-- Embedding of `addQueryToBin` (dli.go), sequentialized: when no bin exists
the first bin is created from the embedding of the query; otherwise the most
similar bin is found and the query is placed there, in a new bin, or in the
closest bin depending on the threshold and the bin cap. -/
noncomputable def addQueryToBin (dli : DurableLayeredIndex) (q : Query) :
    DurableLayeredIndex :=
  if dli.bins.length = 0 then
    let r := addBinWithVector dli q.embedding
    submitTo r.1 r.2 q
  else
    let sims := dli.binVectors.map (fun v => cosineSimilarity q.embedding v)
    let best := bestBinLoop 0 (0, -1) sims
    if best.2 ≥ dli.groupingThreshold then submitTo dli best.1 q
    else if dli.bins.length < dli.maxBinsPerIndex then
      let r := addBinWithVector dli q.embedding
      submitTo r.1 r.2 q
    else submitTo dli best.1 q

/-- Embedding of `config.Load` (rb/internal/config/config.go).  The process
environment is abstracted as a total map from variable names to values, with
the empty string standing for an unset variable, exactly as `os.Getenv`
reports it. -/
structure Config where
  embeddingServerAddr : String
  pineconeAPIKey : String
  pineconeIndex : String
  pineconeRegion : String
deriving DecidableEq

/-- Embedding of the package-local `getEnv` helper (config.go). -/
def getEnv (env : String → String) (key defaultValue : String) : String :=
  if env key ≠ "" then env key else defaultValue

/-- Embedding of `config.Load` (config.go): note that the API key is read from
the variable `PINECONE_KEY` while the validation message names
`PINECONE_API_KEY`. -/
def Load (env : String → String) : Except String Config :=
  let cfg : Config :=
    { embeddingServerAddr := getEnv env "EMBEDDING_SERVER_ADDR" "localhost:50051",
      pineconeAPIKey := getEnv env "PINECONE_KEY" "",
      pineconeIndex := getEnv env "PINECONE_INDEX" "",
      pineconeRegion := getEnv env "PINECONE_REGION" "" }
  if cfg.pineconeAPIKey = "" then Except.error "PINECONE_API_KEY is required"
  else if cfg.pineconeIndex = "" then Except.error "PINECONE_INDEX is required"
  else Except.ok cfg

/-- Sum of products over a zipped list of pairs (first components times second
components); the `dotProduct` accumulator of the `cosineSimilarity` loop. -/
def pairDot (l : List (ℝ × ℝ)) : ℝ := (l.map (fun p => p.1 * p.2)).sum

/-- Sum of squared first components; the `normA` accumulator. -/
def pairNormA (l : List (ℝ × ℝ)) : ℝ := (l.map (fun p => p.1 * p.1)).sum

/-- Sum of squared second components; the `normB` accumulator. -/
def pairNormB (l : List (ℝ × ℝ)) : ℝ := (l.map (fun p => p.2 * p.2)).sum

/-- Concrete router state (one bin, representative vector (1,0)) used by the
witness of the routing claim. -/
noncomputable def dliW1 : DurableLayeredIndex :=
  { binVectors := [[1, 0]], bins := [NewBin 6 500],
    groupingThreshold := 1/2, maxBinsPerIndex := 100 }

/-- Concrete query with embedding (1,0) used by the witness of the routing
claim. -/
def qW1 : Query := { text := "t", embedding := [1, 0], resultChan := none }

/-- Concrete query with embedding (3,4) (Euclidean norm 5) used by the
normalization counterexample. -/
def qW5 : Query := { text := "s", embedding := [3, 4], resultChan := none }

/-- Concrete live bin holding two fresh queries, used by the batch-flush
witness. -/
def binW2 : Bin :=
  { queue := [NewQuery "a", NewQuery "b"], maxBatchSize := 6,
    maxWaitTimeMs := 500, shutdown := false }

/-- Concrete live bin one query short of its batch size. -/
def binW6 : Bin :=
  { queue := [NewQuery "a"], maxBatchSize := 2, maxWaitTimeMs := 500,
    shutdown := false }

/-- The bin of `binW6` after shutdown. -/
def binW6s : Bin := { binW6 with shutdown := true }

/-- Environment with the documented variables set: `PINECONE_API_KEY` and
`PINECONE_INDEX`, everything else unset. -/
def envDocumented : String → String := fun k =>
  if k = "PINECONE_API_KEY" then "sk-test"
  else if k = "PINECONE_INDEX" then "prod-index" else ""

/-- Environment identical to `envDocumented` except that the API key sits
under the name the code actually reads, `PINECONE_KEY`. -/
def envActual : String → String := fun k =>
  if k = "PINECONE_KEY" then "sk-test"
  else if k = "PINECONE_INDEX" then "prod-index" else ""

/-- Unrolling the `cosineSimilarity` accumulator loop: starting the fold at
`(x, y, z)` adds the three componentwise sums. -/
theorem simAcc_go (l : List (ℝ × ℝ)) : ∀ x y z : ℝ,
    l.foldl
      (fun acc p => (acc.1 + p.1 * p.2, acc.2.1 + p.1 * p.1, acc.2.2 + p.2 * p.2))
      (x, y, z)
      = (x + pairDot l, y + pairNormA l, z + pairNormB l) := by
  induction l with
  | nil => intro x y z; simp [pairDot, pairNormA, pairNormB]
  | cons p t ih =>
    intro x y z
    rw [List.foldl_cons]
    rw [ih (x + p.1 * p.2) (y + p.1 * p.1) (z + p.2 * p.2)]
    simp only [pairDot, pairNormA, pairNormB, List.map_cons, List.sum_cons]
    refine Prod.ext ?_ (Prod.ext ?_ ?_) <;> simp <;> ring

/-- The accumulator of `cosineSimilarity` computes the three sums over the
zipped vectors. -/
theorem simAcc_eq (a b : Vec) :
    simAcc a b = (pairDot (a.zip b), pairNormA (a.zip b), pairNormB (a.zip b)) := by
  simpa using simAcc_go (a.zip b) 0 0 0

theorem pairNormA_nonneg (l : List (ℝ × ℝ)) : 0 ≤ pairNormA l := by
  refine List.sum_nonneg ?_
  intro x hx
  simp only [List.mem_map] at hx
  obtain ⟨p, _, rfl⟩ := hx
  exact mul_self_nonneg _

theorem pairNormB_nonneg (l : List (ℝ × ℝ)) : 0 ≤ pairNormB l := by
  refine List.sum_nonneg ?_
  intro x hx
  simp only [List.mem_map] at hx
  obtain ⟨p, _, rfl⟩ := hx
  exact mul_self_nonneg _

/-- Scalar step of the inductive Cauchy-Schwarz proof. -/
theorem cs_step (a b A B D : ℝ) (hA : 0 ≤ A) (hB : 0 ≤ B) (hD : D ^ 2 ≤ A * B) :
    (a * b + D) ^ 2 ≤ (a * a + A) * (b * b + B) := by
  rcases eq_or_lt_of_le hB with hB0 | hBpos
  · have hD2 : D ^ 2 ≤ 0 := by nlinarith
    have hD0 : D = 0 := by nlinarith [sq_nonneg D]
    subst hD0
    nlinarith [sq_nonneg b, mul_nonneg hA (mul_self_nonneg b)]
  · nlinarith [sq_nonneg (a * B - b * D),
      mul_nonneg (sq_nonneg b) (sub_nonneg.mpr hD), hBpos]

/-- Cauchy-Schwarz over a list of pairs. -/
theorem pair_cauchy_schwarz (l : List (ℝ × ℝ)) :
    pairDot l ^ 2 ≤ pairNormA l * pairNormB l := by
  induction l with
  | nil => simp [pairDot, pairNormA, pairNormB]
  | cons p t ih =>
    simp only [pairDot, pairNormA, pairNormB, List.map_cons, List.sum_cons] at ih ⊢
    exact cs_step p.1 p.2 _ _ _ (pairNormA_nonneg t) (pairNormB_nonneg t) ih

/-- For vectors of equal length, the `normA` accumulator is the sum of squared
components of the first vector. -/
theorem pairNormA_zip (a b : Vec) (h : a.length = b.length) :
    pairNormA (a.zip b) = sqNormSum a := by
  induction a generalizing b with
  | nil => simp [pairNormA, sqNormSum]
  | cons x s ih =>
    cases b with
    | nil => simp at h
    | cons y t =>
      simp only [List.zip_cons_cons, pairNormA, List.map_cons, List.sum_cons,
        sqNormSum] at ih ⊢
      rw [ih t (by simpa using h)]

/-- For vectors of equal length, the `normB` accumulator is the sum of squared
components of the second vector. -/
theorem pairNormB_zip (a b : Vec) (h : a.length = b.length) :
    pairNormB (a.zip b) = sqNormSum b := by
  induction a generalizing b with
  | nil =>
    cases b with
    | nil => simp [pairNormB, sqNormSum]
    | cons y t => simp at h
  | cons x s ih =>
    cases b with
    | nil => simp at h
    | cons y t =>
      simp only [List.zip_cons_cons, pairNormB, List.map_cons, List.sum_cons,
        sqNormSum] at ih ⊢
      rw [ih t (by simpa using h)]

/-- The sum computed by `dotProduct` is the `pairDot` of the zipped lists. -/
theorem zipWith_mul_sum (a b : Vec) :
    (List.zipWith (fun x y => x * y) a b).sum = pairDot (a.zip b) := by
  induction a generalizing b with
  | nil => simp [pairDot]
  | cons x s ih =>
    cases b with
    | nil => simp [pairDot]
    | cons y t =>
      simp only [List.zipWith_cons_cons, List.zip_cons_cons, pairDot,
        List.map_cons, List.sum_cons] at ih ⊢
      rw [ih t]

/-- Exact-arithmetic cosine similarity never falls below -1, hence never below
the initial `bestSimilarity` of the router loop. -/
theorem cosineSimilarity_ge_neg_one (a b : Vec) : -1 ≤ cosineSimilarity a b := by
  unfold cosineSimilarity
  split
  · norm_num
  · rw [simAcc_eq]
    dsimp only
    split
    · norm_num
    · rename_i hlen hnz
      push_neg at hnz
      obtain ⟨hA0, hB0⟩ := hnz
      have hA : 0 < pairNormA (a.zip b) :=
        lt_of_le_of_ne (pairNormA_nonneg _) (Ne.symm hA0)
      have hB : 0 < pairNormB (a.zip b) :=
        lt_of_le_of_ne (pairNormB_nonneg _) (Ne.symm hB0)
      have hP : 0 < Real.sqrt (pairNormA (a.zip b)) * Real.sqrt (pairNormB (a.zip b)) :=
        mul_pos (Real.sqrt_pos.mpr hA) (Real.sqrt_pos.mpr hB)
      rw [le_div_iff₀ hP]
      have hPsq : (Real.sqrt (pairNormA (a.zip b)) * Real.sqrt (pairNormB (a.zip b))) ^ 2
          = pairNormA (a.zip b) * pairNormB (a.zip b) := by
        rw [mul_pow, Real.sq_sqrt hA.le, Real.sq_sqrt hB.le]
      nlinarith [sq_nonneg (pairDot (a.zip b) +
        Real.sqrt (pairNormA (a.zip b)) * Real.sqrt (pairNormB (a.zip b))),
        pair_cauchy_schwarz (a.zip b)]

/-- Behaviour of the router argmax loop from an arbitrary starting state:
either no element beats the incoming best pair and it is returned unchanged,
or the result is the first element strictly exceeding everything before it
and at least everything after it. -/
theorem bestBinLoop_cases (l : List ℝ) : ∀ (i : ℕ) (best : ℕ × ℝ),
    (bestBinLoop i best l = best ∧ ∀ x ∈ l, x ≤ best.2) ∨
    (∃ j, j < l.length ∧ (bestBinLoop i best l).1 = i + j ∧
      (bestBinLoop i best l).2 = l.getD j 0 ∧ best.2 < l.getD j 0 ∧
      (∀ k, k < j → l.getD k 0 < (bestBinLoop i best l).2) ∧
      (∀ x ∈ l, x ≤ (bestBinLoop i best l).2)) := by
  induction l with
  | nil =>
    intro i best
    exact Or.inl ⟨rfl, by intro x hx; simp at hx⟩
  | cons v rest ih =>
    intro i best
    by_cases hv : v > best.2
    · have hstep : bestBinLoop i best (v :: rest) = bestBinLoop (i + 1) (i, v) rest := by
        simp [bestBinLoop, hv]
      rcases ih (i + 1) (i, v) with ⟨heq, hle⟩ | ⟨j, hj, h1, h2, h3, h4, h5⟩
      · right
        refine ⟨0, by simp, ?_, ?_, ?_, ?_, ?_⟩
        · rw [hstep, heq]; rfl
        · rw [hstep, heq]; rfl
        · simpa using hv
        · intro k hk; omega
        · intro x hx
          rw [hstep, heq]
          rcases List.mem_cons.mp hx with rfl | hx
          · exact le_refl _
          · exact hle x hx
      · right
        refine ⟨j + 1, by simpa using hj, ?_, ?_, ?_, ?_, ?_⟩
        · rw [hstep, h1]; omega
        · rw [hstep, h2, List.getD_cons_succ]
        · rw [List.getD_cons_succ]; exact lt_trans hv h3
        · intro k hk
          rw [hstep]
          cases k with
          | zero =>
            rw [List.getD_cons_zero, h2]
            exact h3
          | succ k =>
            rw [List.getD_cons_succ]
            exact h4 k (by omega)
        · intro x hx
          rw [hstep]
          rcases List.mem_cons.mp hx with rfl | hx
          · rw [h2]; exact le_of_lt h3
          · exact h5 x hx
    · have hstep : bestBinLoop i best (v :: rest) = bestBinLoop (i + 1) best rest := by
        simp [bestBinLoop, hv]
      push_neg at hv
      rcases ih (i + 1) best with ⟨heq, hle⟩ | ⟨j, hj, h1, h2, h3, h4, h5⟩
      · left
        constructor
        · rw [hstep, heq]
        · intro x hx
          rcases List.mem_cons.mp hx with rfl | hx
          · exact hv
          · exact hle x hx
      · right
        refine ⟨j + 1, by simpa using hj, ?_, ?_, ?_, ?_, ?_⟩
        · rw [hstep, h1]; omega
        · rw [hstep, h2, List.getD_cons_succ]
        · rw [List.getD_cons_succ]; exact h3
        · intro k hk
          rw [hstep]
          cases k with
          | zero =>
            rw [List.getD_cons_zero, h2]
            exact lt_of_le_of_lt hv h3
          | succ k =>
            rw [List.getD_cons_succ]
            exact h4 k (by omega)
        · intro x hx
          rw [hstep]
          rcases List.mem_cons.mp hx with rfl | hx
          · rw [h2]; exact le_of_lt (lt_of_le_of_lt hv h3)
          · exact h5 x hx

/-- The router loop started at `(0, -1.0)` computes the first index attaining
the maximum of the list, provided every element is at least -1 (which holds
for cosine similarities) and the list is non-empty. -/
theorem bestBinLoop_spec (sims : List ℝ) (hne : sims ≠ [])
    (hlb : ∀ x ∈ sims, -1 ≤ x) :
    (bestBinLoop 0 (0, -1) sims).1 < sims.length ∧
    sims.getD (bestBinLoop 0 (0, -1) sims).1 0 = (bestBinLoop 0 (0, -1) sims).2 ∧
    (∀ x ∈ sims, x ≤ (bestBinLoop 0 (0, -1) sims).2) ∧
    (∀ k, k < (bestBinLoop 0 (0, -1) sims).1 →
      sims.getD k 0 < (bestBinLoop 0 (0, -1) sims).2) := by
  rcases bestBinLoop_cases sims 0 (0, -1) with ⟨heq, hle⟩ | ⟨j, hj, h1, h2, h3, h4, h5⟩
  · obtain ⟨s, rest, rfl⟩ := List.exists_cons_of_ne_nil hne
    have hs : s = -1 := le_antisymm (by simpa using hle s (by simp))
      (hlb s (by simp))
    rw [heq]
    refine ⟨by simp, by simpa using hs, ?_, ?_⟩
    · intro x hx; simpa using hle x hx
    · intro k hk; simp at hk
  · have hidx : (bestBinLoop 0 (0, -1) sims).1 = j := by omega
    refine ⟨by rw [hidx]; exact hj, ?_, h5, ?_⟩
    · rw [hidx]; exact h2.symm
    · intro k hk
      rw [hidx] at hk
      exact h4 k hk

/-- The first index attaining the maximum of a list of reals, together with
that maximum, is unique. -/
theorem firstArgmax_eq (sims : List ℝ) (bi : ℕ) (bs : ℝ)
    (hbi : bi < sims.length) (hval : sims.getD bi 0 = bs)
    (hmax : ∀ x ∈ sims, x ≤ bs) (hfirst : ∀ k, k < bi → sims.getD k 0 < bs)
    (bi2 : ℕ) (bs2 : ℝ)
    (hbi2 : bi2 < sims.length) (hval2 : sims.getD bi2 0 = bs2)
    (hmax2 : ∀ x ∈ sims, x ≤ bs2) (hfirst2 : ∀ k, k < bi2 → sims.getD k 0 < bs2) :
    bi = bi2 ∧ bs = bs2 := by
  have hmem : sims.getD bi 0 ∈ sims := by
    rw [List.getD_eq_getElem sims 0 hbi]
    exact List.getElem_mem hbi
  have hmem2 : sims.getD bi2 0 ∈ sims := by
    rw [List.getD_eq_getElem sims 0 hbi2]
    exact List.getElem_mem hbi2
  have hbs : bs = bs2 := by
    have h1 : bs ≤ bs2 := hval ▸ hmax2 _ hmem
    have h2 : bs2 ≤ bs := hval2 ▸ hmax _ hmem2
    exact le_antisymm h1 h2
  refine ⟨?_, hbs⟩
  rcases lt_trichotomy bi bi2 with h | h | h
  · exact absurd (hval ▸ hfirst2 bi h) (by rw [hbs]; exact lt_irrefl _)
  · exact h
  · exact absurd (hval2 ▸ hfirst bi2 h) (by rw [hbs]; exact lt_irrefl _)

/-- C7: delivering `x` and then `y` into a freshly created query and then
awaiting yields `x`: the first delivery fills the capacity-1 completion slot,
the second is silently discarded without blocking, and the single consumer
observes only the first. -/
theorem C7_deliver_single_shot (text : String) (x y : QueryResult) :
    WaitForResult (SetResult (SetResult (NewQuery text) x) y) = some x ∧
    SetResult (SetResult (NewQuery text) x) y = SetResult (NewQuery text) x := by
  exact ⟨rfl, rfl⟩

/-- C10: `EmbedText` returns a vector of length 384 with every component
equal to the byte length of the text, so `NewQuery` gives any two texts of
equal length the same embedding, and every embedding has all components
equal. -/
theorem C10_embedText_components (s t : String) :
    (EmbedText s).length = 384 ∧
    (∀ x ∈ EmbedText s, x = (s.utf8ByteSize : ℝ)) ∧
    (s.utf8ByteSize = t.utf8ByteSize →
      (NewQuery s).embedding = (NewQuery t).embedding) ∧
    (∀ x ∈ (NewQuery s).embedding, ∀ y ∈ (NewQuery s).embedding, x = y) := by
  refine ⟨by rw [EmbedText]; exact List.length_replicate 384 _, ?_, ?_, ?_⟩
  · intro x hx
    exact List.eq_of_mem_replicate hx
  · intro h
    unfold NewQuery EmbedText
    rw [h]
  · intro x hx y hy
    rw [List.eq_of_mem_replicate hx, List.eq_of_mem_replicate hy]

/-- Witness for C10 at the equal-byte-length texts "ab" and "cd". -/
theorem C10_embedText_components_witness :
    "ab".utf8ByteSize = "cd".utf8ByteSize ∧
    (NewQuery "ab").embedding = (NewQuery "cd").embedding :=
  ⟨by decide, (C10_embedText_components "ab" "cd").2.2.1 (by decide)⟩

/-- C9: evaluation of `Load` at the failing input.  With the documented
variables `PINECONE_API_KEY` and `PINECONE_INDEX` set, `Load` still fails
with "PINECONE_API_KEY is required", because the code reads the key from the
variable `PINECONE_KEY`; moving the same value under `PINECONE_KEY` makes it
succeed. -/
theorem C9_load_reads_wrong_variable :
    Load envDocumented = Except.error "PINECONE_API_KEY is required" ∧
    Load envActual = Except.ok
      { embeddingServerAddr := "localhost:50051", pineconeAPIKey := "sk-test",
        pineconeIndex := "prod-index", pineconeRegion := "" } := by
  exact ⟨rfl, rfl⟩

/-- The Close loop over bins whose Shutdown all succeed returns nil after
calling Shutdown on every bin. -/
theorem closeGo_all_none (l : List (Option String)) : ∀ i : ℕ,
    (∀ x ∈ l, x = none) → closeGo i l = (none, l.length) := by
  induction l with
  | nil => intro i _; rfl
  | cons o rest ih =>
    intro i h
    have ho : o = none := h o (by simp)
    subst ho
    simp only [closeGo, ih (i + 1) (fun x hx => h x (by simp [hx])), List.length_cons]

/-- The Close loop stops at the first failing bin: it calls Shutdown on the
preceding bins and on the failing one, returns the wrapped error, and never
touches the remaining bins. -/
theorem closeGo_first_failure (pre : List (Option String)) : ∀ (i : ℕ)
    (e : String) (post : List (Option String)), (∀ x ∈ pre, x = none) →
    closeGo i (pre ++ some e :: post)
      = (some (shutdownErrMsg (i + pre.length) e), pre.length + 1) := by
  induction pre with
  | nil => intro i e post _; simp [closeGo]
  | cons o rest ih =>
    intro i e post h
    have ho : o = none := h o (by simp)
    subst ho
    have hrec := ih (i + 1) e post (fun x hx => h x (by simp [hx]))
    have harith : i + 1 + rest.length = i + (rest.length + 1) := by omega
    simp only [List.cons_append, closeGo, List.append_eq, hrec, harith,
      List.length_cons]

/-- C3 (counterexample): with two bins of which the first fails to shut down,
`Close` returns the wrapped first failure but calls `Shutdown` on only one of
the two bins — the later bin is never shut down, contrary to the claim. -/
theorem C3_counterexample :
    (Close [some "context deadline exceeded", none]).1
      = some (shutdownErrMsg 0 "context deadline exceeded") ∧
    (Close [some "context deadline exceeded", none]).2 = 1 ∧
    (Close [some "context deadline exceeded", none]).2
      ≠ ([some "context deadline exceeded", none] : List (Option String)).length := by
  refine ⟨?_, ?_, ?_⟩
  · rfl
  · rfl
  · decide

/-- C3 (amended): `Close` iterates the bin list in order calling `Shutdown`;
the first failure is returned immediately, wrapped with the bin index, and the
bins after the failing one do not have `Shutdown` called on them; when every
`Shutdown` succeeds, all bins are shut down and nil is returned. -/
theorem C3_close_stops_at_first_failure (pre post : List (Option String))
    (e : String) (hpre : ∀ x ∈ pre, x = none) :
    Close (pre ++ some e :: post)
      = (some (shutdownErrMsg pre.length e), pre.length + 1) ∧
    (∀ l : List (Option String), (∀ x ∈ l, x = none) →
      Close l = (none, l.length)) := by
  constructor
  · have := closeGo_first_failure pre 0 e post hpre
    simpa [Close] using this
  · intro l hl
    exact closeGo_all_none l 0 hl

/-- Witness for C3 amended: one succeeding bin, then a failing one, then one
more; and separately two succeeding bins. -/
theorem C3_close_stops_at_first_failure_witness :
    (∀ x ∈ ([none] : List (Option String)), x = none) ∧
    Close [none, some "boom", none] = (some (shutdownErrMsg 1 "boom"), 2) ∧
    Close [none, none] = (none, 2) := by
  have h : ∀ x ∈ ([none] : List (Option String)), x = none := by
    intro x hx; simpa using hx
  have main := C3_close_stops_at_first_failure [none] [none] "boom" h
  refine ⟨h, ?_, ?_⟩
  · simpa using main.1
  · simpa using main.2 [none, none] (by simp)

/-- C5 (counterexample): submitting a first query with embedding (3,4) leaves
the raw vector (3,4) in `binVectors`; its Euclidean norm is 5, so the stored
representative is not L2-normalized. -/
theorem C5_counterexample :
    (addQueryToBin (NewDurableLayeredIndex 100 0) qW5).binVectors = [[3, 4]] ∧
    l2norm [3, 4] ≠ 1 := by
  constructor
  · simp [addQueryToBin, NewDurableLayeredIndex, addBinWithVector, submitTo, qW5]
  · have h25 : sqNormSum [3, 4] = (25 : ℝ) := by norm_num [sqNormSum]
    rw [l2norm, h25]
    rw [show (25 : ℝ) = 5 ^ 2 by norm_num, Real.sqrt_sq (by norm_num)]
    norm_num

/-- C5 (amended): representative vectors are stored in `binVectors` verbatim,
without normalization: the lazily created bin 0 stores exactly the embedding
of the first query, and any submission either leaves `binVectors` unchanged
or appends exactly the embedding of the query.  They are therefore unit-norm
only when the submitted embedding already is; `normalizeVector` is never
applied to them. -/
theorem C5_bin_vectors_stored_verbatim (mb : ℤ) (thr : ℝ) (q : Query)
    (s : DurableLayeredIndex) :
    (addQueryToBin (NewDurableLayeredIndex mb thr) q).binVectors = [q.embedding] ∧
    ((addQueryToBin s q).binVectors = s.binVectors ∨
      (addQueryToBin s q).binVectors = s.binVectors ++ [q.embedding]) := by
  constructor
  · simp [addQueryToBin, NewDurableLayeredIndex, addBinWithVector, submitTo]
  · unfold addQueryToBin
    dsimp only
    split
    · right; simp [addBinWithVector, submitTo]
    · split
      · left; simp [submitTo]
      · split
        · right; simp [addBinWithVector, submitTo]
        · left; simp [submitTo]

/-- C6: `AddQuery` on a shut-down bin returns an error and leaves the bin
unchanged without signalling; on a live bin it succeeds, appends the query at
the end of the queue, and signals the coalescing flush channel exactly when
the resulting queue length has reached `maxBatchSize`. -/
theorem C6_addQuery (b : Bin) (q : Query) :
    (b.shutdown = true →
      (AddQuery b q).ret = Except.error "bin is shut down" ∧
      (AddQuery b q).bin = b ∧ (AddQuery b q).flushSignaled = false) ∧
    (b.shutdown = false →
      (AddQuery b q).ret = Except.ok () ∧
      (AddQuery b q).bin.queue = b.queue ++ [q] ∧
      ((AddQuery b q).flushSignaled = true ↔
        b.maxBatchSize ≤ b.queue.length + 1)) := by
  constructor
  · intro h
    refine ⟨?_, ?_, ?_⟩ <;> simp [AddQuery, h]
  · intro h
    refine ⟨?_, ?_, ?_⟩ <;> simp [AddQuery, h]

/-- Witness for C6: a shut-down bin rejects, and a live bin one query short
of its batch size accepts and signals a flush. -/
theorem C6_addQuery_witness :
    binW6s.shutdown = true ∧
    (AddQuery binW6s (NewQuery "x")).ret = Except.error "bin is shut down" ∧
    binW6.shutdown = false ∧
    (AddQuery binW6 (NewQuery "x")).bin.queue = binW6.queue ++ [NewQuery "x"] ∧
    (AddQuery binW6 (NewQuery "x")).flushSignaled = true := by
  refine ⟨rfl, ((C6_addQuery binW6s (NewQuery "x")).1 rfl).1, rfl,
    ((C6_addQuery binW6 (NewQuery "x")).2 rfl).2.1, ?_⟩
  exact ((C6_addQuery binW6 (NewQuery "x")).2 rfl).2.2.mpr (by simp [binW6])

/-- C2: flushing a non-empty batch drains the queue and delivers, in the
insertion order of the batch, exactly one outcome per query: the whole-batch
error to every query when the downstream call failed, `results[i]` to query
`i` when it exists, and the missing-result error to the unmatched tail; an
outcome mixing real results with the whole-batch failure is impossible. -/
theorem C2_processBatch (b : Bin) (call : Except String (List String))
    (hne : b.queue ≠ []) :
    (processBatch b call).1.queue = [] ∧
    (processBatch b call).2.length = b.queue.length ∧
    (∀ i, i < b.queue.length →
      (processBatch b call).2.getD i default
        = SetResult (b.queue.getD i default) (batchDelivery call i)) ∧
    (∀ e, call = Except.error e →
      ∀ i, batchDelivery call i = QueryResult.downstreamFailure e) ∧
    (∀ rs, call = Except.ok rs → ∀ i,
      (i < rs.length → batchDelivery call i = QueryResult.value (rs.getD i "")) ∧
      (rs.length ≤ i → batchDelivery call i = QueryResult.missingResult)) ∧
    (∀ i j v e, ¬ (batchDelivery call i = QueryResult.value v ∧
      batchDelivery call j = QueryResult.downstreamFailure e)) := by
  have hproc : processBatch b call
      = ({ b with queue := [] },
         b.queue.enum.map (fun p => SetResult p.2 (batchDelivery call p.1))) := by
    unfold processBatch
    rw [if_neg (by simpa using hne)]
  refine ⟨by rw [hproc], by rw [hproc]; simp, ?_, ?_, ?_, ?_⟩
  · intro i hi
    rw [hproc]
    have hi2 : i < (b.queue.enum.map
        (fun p => SetResult p.2 (batchDelivery call p.1))).length := by simpa using hi
    rw [List.getD_eq_getElem _ _ hi2, List.getElem_map, List.getElem_enum,
      List.getD_eq_getElem _ _ hi]
  · intro e he i
    subst he
    rfl
  · intro rs hok i
    subst hok
    constructor
    · intro h; simp [batchDelivery, h]
    · intro h; simp [batchDelivery, Nat.not_lt.mpr h]
  · intro i j v e h
    obtain ⟨h1, h2⟩ := h
    cases call with
    | error e2 => simp [batchDelivery] at h1
    | ok rs =>
      rw [batchDelivery] at h2
      split at h2 <;> simp at h2

/-- Witness for C2: a bin with two fresh queries flushed against a downstream
call returning a single result. -/
theorem C2_processBatch_witness :
    binW2.queue ≠ [] ∧
    (processBatch binW2 (Except.ok ["r1"])).2.length = binW2.queue.length ∧
    batchDelivery (Except.ok ["r1"]) 0 = QueryResult.value "r1" ∧
    batchDelivery (Except.ok ["r1"]) 1 = QueryResult.missingResult := by
  have hne : binW2.queue ≠ [] := by simp [binW2]
  have main := C2_processBatch binW2 (Except.ok ["r1"]) hne
  refine ⟨hne, main.2.1, ?_, ?_⟩
  · exact (main.2.2.2.2.1 ["r1"] rfl 0).1 (by norm_num)
  · exact (main.2.2.2.2.1 ["r1"] rfl 1).2 (by norm_num)

/-- C8: `cosineSimilarity` returns 0 on length mismatch or when either vector
has zero squared norm, and otherwise the dot product divided by the product
of the two Euclidean norms. -/
theorem C8_cosineSimilarity_spec (a b : Vec) :
    (a.length ≠ b.length → cosineSimilarity a b = 0) ∧
    (sqNormSum a = 0 ∨ sqNormSum b = 0 → cosineSimilarity a b = 0) ∧
    (a.length = b.length → sqNormSum a ≠ 0 → sqNormSum b ≠ 0 →
      cosineSimilarity a b = dotProduct a b / (l2norm a * l2norm b)) := by
  refine ⟨?_, ?_, ?_⟩
  · intro h
    simp [cosineSimilarity, h]
  · intro h
    unfold cosineSimilarity
    split
    · rfl
    · rename_i hlen
      rw [not_ne_iff] at hlen
      rw [simAcc_eq]
      dsimp only
      rw [if_pos]
      rcases h with h | h
      · exact Or.inl (by rw [pairNormA_zip a b hlen]; exact h)
      · exact Or.inr (by rw [pairNormB_zip a b hlen]; exact h)
  · intro hlen hA hB
    unfold cosineSimilarity
    rw [if_neg (by rw [not_ne_iff]; exact hlen)]
    rw [simAcc_eq]
    dsimp only
    rw [if_neg]
    · rw [pairNormA_zip a b hlen, pairNormB_zip a b hlen,
        dotProduct, if_neg (by rw [not_ne_iff]; exact hlen), zipWith_mul_sum]
      rfl
    · rw [pairNormA_zip a b hlen, pairNormB_zip a b hlen]
      push_neg
      exact ⟨hA, hB⟩

/-- Witness for C8 on the vectors (3,4) and (4,3). -/
theorem C8_cosineSimilarity_spec_witness :
    ([3, 4] : Vec).length = ([4, 3] : Vec).length ∧
    sqNormSum [3, 4] ≠ 0 ∧ sqNormSum [4, 3] ≠ 0 ∧
    cosineSimilarity [3, 4] [4, 3]
      = dotProduct [3, 4] [4, 3] / (l2norm [3, 4] * l2norm [4, 3]) := by
  have h1 : sqNormSum ([3, 4] : Vec) ≠ 0 := by norm_num [sqNormSum]
  have h2 : sqNormSum ([4, 3] : Vec) ≠ 0 := by norm_num [sqNormSum]
  exact ⟨rfl, h1, h2, (C8_cosineSimilarity_spec [3, 4] [4, 3]).2.2 rfl h1 h2⟩

/-- Evaluation of the cosine similarity of the unit vector (1,0) with
itself, used by the routing witness. -/
theorem cosineSimilarity_e1_self : cosineSimilarity ([1, 0] : Vec) [1, 0] = 1 := by
  unfold cosineSimilarity
  rw [if_neg (by norm_num)]
  rw [simAcc_eq]
  dsimp only
  have hz : (([1, 0] : Vec).zip [1, 0]) = [((1 : ℝ), (1 : ℝ)), (0, 0)] := rfl
  rw [hz]
  norm_num [pairDot, pairNormA, pairNormB]

/-- C1: for a router with a non-empty bin table, letting `bi`/`bs` be the
first index attaining the maximum cosine similarity between the embedding of
the query and the bin representative vectors: when `bs` is at least the
grouping threshold the query is submitted to bin `bi`; otherwise, when the
bin cap is not reached, a new bin whose representative vector is a copy of
the embedding of the query is appended and the query is submitted to it; and
otherwise the query is submitted to bin `bi`. -/
theorem C1_routing_decision (dli : DurableLayeredIndex) (q : Query)
    (hne : dli.bins ≠ [])
    (hlen : dli.binVectors.length = dli.bins.length)
    (bi : ℕ) (bs : ℝ)
    (hbi : bi < (dli.binVectors.map (fun v => cosineSimilarity q.embedding v)).length)
    (hval : (dli.binVectors.map (fun v => cosineSimilarity q.embedding v)).getD bi 0 = bs)
    (hmax : ∀ x ∈ dli.binVectors.map (fun v => cosineSimilarity q.embedding v), x ≤ bs)
    (hfirst : ∀ k, k < bi →
      (dli.binVectors.map (fun v => cosineSimilarity q.embedding v)).getD k 0 < bs) :
    (bs ≥ dli.groupingThreshold → addQueryToBin dli q = submitTo dli bi q) ∧
    (bs < dli.groupingThreshold → dli.bins.length < dli.maxBinsPerIndex →
      addQueryToBin dli q
        = submitTo
            { dli with binVectors := dli.binVectors ++ [q.embedding],
                       bins := dli.bins ++ [NewBin 6 500] }
            dli.bins.length q) ∧
    (bs < dli.groupingThreshold → dli.maxBinsPerIndex ≤ dli.bins.length →
      addQueryToBin dli q = submitTo dli bi q) := by
  have hlb : ∀ x ∈ dli.binVectors.map (fun v => cosineSimilarity q.embedding v),
      -1 ≤ x := by
    intro x hx
    simp only [List.mem_map] at hx
    obtain ⟨v, _, rfl⟩ := hx
    exact cosineSimilarity_ge_neg_one _ _
  have hsne : dli.binVectors.map (fun v => cosineSimilarity q.embedding v) ≠ [] := by
    intro hcontr
    have hlen0 : dli.binVectors.length = 0 := by
      have := congrArg List.length hcontr
      simpa using this
    rw [hlen] at hlen0
    exact hne (List.length_eq_zero.mp hlen0)
  have hspec := bestBinLoop_spec
    (dli.binVectors.map (fun v => cosineSimilarity q.embedding v)) hsne hlb
  have huniq := firstArgmax_eq
    (dli.binVectors.map (fun v => cosineSimilarity q.embedding v))
    (bestBinLoop 0 (0, -1) (dli.binVectors.map (fun v => cosineSimilarity q.embedding v))).1
    (bestBinLoop 0 (0, -1) (dli.binVectors.map (fun v => cosineSimilarity q.embedding v))).2
    hspec.1 hspec.2.1 hspec.2.2.1 hspec.2.2.2 bi bs hbi hval hmax hfirst
  have hb0 : ¬ dli.bins.length = 0 := by
    simpa [List.length_eq_zero] using hne
  have hstep : addQueryToBin dli q =
      (if (bestBinLoop 0 (0, -1)
            (dli.binVectors.map (fun v => cosineSimilarity q.embedding v))).2
          ≥ dli.groupingThreshold then
        submitTo dli
          (bestBinLoop 0 (0, -1)
            (dli.binVectors.map (fun v => cosineSimilarity q.embedding v))).1 q
      else if dli.bins.length < dli.maxBinsPerIndex then
        submitTo (addBinWithVector dli q.embedding).1
          (addBinWithVector dli q.embedding).2 q
      else
        submitTo dli
          (bestBinLoop 0 (0, -1)
            (dli.binVectors.map (fun v => cosineSimilarity q.embedding v))).1 q) := by
    unfold addQueryToBin
    rw [if_neg hb0]
  rw [huniq.1, huniq.2] at hstep
  have hidx2 : (addBinWithVector dli q.embedding).2 = dli.bins.length := by
    simp [addBinWithVector]
  have hfst : (addBinWithVector dli q.embedding).1
      = { dli with binVectors := dli.binVectors ++ [q.embedding],
                   bins := dli.bins ++ [NewBin 6 500] } := rfl
  refine ⟨?_, ?_, ?_⟩
  · intro hthr
    rw [hstep, if_pos hthr]
  · intro hthr hcap
    rw [hstep, if_neg (not_le.mpr hthr), if_pos hcap, hfst, hidx2]
  · intro hthr hcap
    rw [hstep, if_neg (not_le.mpr hthr), if_neg (not_lt.mpr hcap)]

/-- Witness for C1: a router with one bin whose representative is (1,0) and a
query with the same embedding; the similarity is 1, above the threshold 1/2,
so the query goes to bin 0. -/
theorem C1_routing_decision_witness :
    dliW1.bins ≠ [] ∧
    dliW1.binVectors.length = dliW1.bins.length ∧
    (dliW1.binVectors.map (fun v => cosineSimilarity qW1.embedding v)).getD 0 0
      = 1 ∧
    (1 : ℝ) ≥ dliW1.groupingThreshold ∧
    addQueryToBin dliW1 qW1 = submitTo dliW1 0 qW1 := by
  have hne : dliW1.bins ≠ [] := by simp [dliW1]
  have hlen : dliW1.binVectors.length = dliW1.bins.length := rfl
  have hbi : 0 < (dliW1.binVectors.map
      (fun v => cosineSimilarity qW1.embedding v)).length := by
    simp [dliW1]
  have hval : (dliW1.binVectors.map
      (fun v => cosineSimilarity qW1.embedding v)).getD 0 0 = 1 := by
    show cosineSimilarity qW1.embedding [1, 0] = 1
    exact cosineSimilarity_e1_self
  have hmax : ∀ x ∈ dliW1.binVectors.map
      (fun v => cosineSimilarity qW1.embedding v), x ≤ 1 := by
    intro x hx
    simp only [dliW1, qW1, List.map_cons, List.map_nil, List.mem_cons,
      List.not_mem_nil, or_false] at hx
    rw [hx, cosineSimilarity_e1_self]
  have hfirst : ∀ k, k < 0 → (dliW1.binVectors.map
      (fun v => cosineSimilarity qW1.embedding v)).getD k 0 < 1 := by
    intro k hk
    omega
  have hthr : (1 : ℝ) ≥ dliW1.groupingThreshold := by
    show (1 : ℝ) ≥ 1 / 2
    norm_num
  exact ⟨hne, hlen, hval, hthr,
    (C1_routing_decision dliW1 qW1 hne hlen 0 1 hbi hval hmax hfirst).1 hthr⟩

/-- One step of query submission never changes the bin cap, and grows the bin
list by one only when it was empty or strictly below the cap. -/
theorem addQueryToBin_step (s : DurableLayeredIndex) (q : Query) :
    (addQueryToBin s q).maxBinsPerIndex = s.maxBinsPerIndex ∧
    ((addQueryToBin s q).bins.length = s.bins.length ∨
      ((addQueryToBin s q).bins.length = s.bins.length + 1 ∧
        (s.bins.length = 0 ∨ s.bins.length < s.maxBinsPerIndex))) := by
  unfold addQueryToBin
  dsimp only
  split
  · rename_i h0
    refine ⟨by simp [addBinWithVector, submitTo], Or.inr ⟨?_, Or.inl h0⟩⟩
    simp [addBinWithVector, submitTo]
  · split
    · exact ⟨by simp [submitTo], Or.inl (by simp [submitTo])⟩
    · split
      · rename_i hcap
        refine ⟨by simp [addBinWithVector, submitTo], Or.inr ⟨?_, Or.inr hcap⟩⟩
        simp [addBinWithVector, submitTo]
      · exact ⟨by simp [submitTo], Or.inl (by simp [submitTo])⟩

/-- Folding any sequence of submissions preserves the bin-count bound and the
cap value. -/
theorem foldl_addQueryToBin_bound (qs : List Query) : ∀ s : DurableLayeredIndex,
    1 ≤ s.maxBinsPerIndex → s.bins.length ≤ s.maxBinsPerIndex →
    (qs.foldl addQueryToBin s).bins.length
      ≤ (qs.foldl addQueryToBin s).maxBinsPerIndex ∧
    (qs.foldl addQueryToBin s).maxBinsPerIndex = s.maxBinsPerIndex := by
  induction qs with
  | nil =>
    intro s _ h2
    exact ⟨h2, rfl⟩
  | cons q rest ih =>
    intro s h1 h2
    have hstep := addQueryToBin_step s q
    have hlen : (addQueryToBin s q).bins.length
        ≤ (addQueryToBin s q).maxBinsPerIndex := by
      rcases hstep.2 with h | ⟨h, hcase⟩
      · rw [hstep.1, h]; exact h2
      · rw [hstep.1, h]
        rcases hcase with h0 | hlt
        · rw [h0]; exact h1
        · omega
    have hrest := ih (addQueryToBin s q) (by rw [hstep.1]; exact h1) hlen
    rw [List.foldl_cons]
    exact ⟨hrest.1, by rw [hrest.2, hstep.1]⟩

/-- C4: for every router built by the constructor (non-positive `maxBins`
replaced by the default 100) and every sequence of submitted queries, the
number of bins never exceeds the cap. -/
theorem C4_bin_cap (maxBins : ℤ) (thr : ℝ) (qs : List Query) :
    (qs.foldl addQueryToBin (NewDurableLayeredIndex maxBins thr)).bins.length
      ≤ (NewDurableLayeredIndex maxBins thr).maxBinsPerIndex ∧
    (maxBins ≤ 0 → (NewDurableLayeredIndex maxBins thr).maxBinsPerIndex = 100) := by
  have hinit : 1 ≤ (NewDurableLayeredIndex maxBins thr).maxBinsPerIndex := by
    unfold NewDurableLayeredIndex
    dsimp only
    split
    · norm_num
    · rename_i h
      omega
  have hzero : (NewDurableLayeredIndex maxBins thr).bins.length = 0 := rfl
  have hmain := foldl_addQueryToBin_bound qs (NewDurableLayeredIndex maxBins thr)
    hinit (by rw [hzero]; omega)
  refine ⟨by rw [← hmain.2]; exact hmain.1, ?_⟩
  intro h
  unfold NewDurableLayeredIndex
  dsimp only
  rw [if_pos h]

/-- Witness for C4: a router constructed with the non-positive argument -5
gets the default cap 100, which bounds the bin count. -/
theorem C4_bin_cap_witness :
    (-5 : ℤ) ≤ 0 ∧ (NewDurableLayeredIndex (-5) 0).maxBinsPerIndex = 100 :=
  ⟨by norm_num, (C4_bin_cap (-5) 0 []).2 (by norm_num)⟩

end DLI
